import Mathlib

/-!
Verification of the debian_mytodo_pro tray to-do application (Go).

The program is modelled by a shallow embedding: Go strings are modelled as
their rune sequences (`List Char`), the JSON data file as an abstract file
state holding a JSON value, and the startup / socket handshake as pure
functions of the environment outcomes (dial success, write success, the
line read from a connection).
-/

namespace MyTodo

/-- Membership test for the Go `unicode.Han` range table
(`unicode.Is(unicode.Han, r)` in `getWeight`, `truncateByWeightWithEllipsis`
and `truncateByWeight` in src/main.go). The ranges are those of the Go
standard library range table for the Han script. -/
def isHan (c : Char) : Bool :=
  let n := c.toNat
  (0x2E80 ≤ n && n ≤ 0x2E99) ||
  (0x2E9B ≤ n && n ≤ 0x2EF3) ||
  (0x2F00 ≤ n && n ≤ 0x2FD5) ||
  (n == 0x3005) || (n == 0x3007) ||
  (0x3021 ≤ n && n ≤ 0x3029) ||
  (0x3038 ≤ n && n ≤ 0x303B) ||
  (0x3400 ≤ n && n ≤ 0x4DBF) ||
  (0x4E00 ≤ n && n ≤ 0x9FFF) ||
  (0xF900 ≤ n && n ≤ 0xFA6D) ||
  (0xFA70 ≤ n && n ≤ 0xFAD9) ||
  (0x16FE2 ≤ n && n ≤ 0x16FE3) ||
  (0x16FF0 ≤ n && n ≤ 0x16FF1) ||
  (0x20000 ≤ n && n ≤ 0x2A6DF) ||
  (0x2A700 ≤ n && n ≤ 0x2B739) ||
  (0x2B740 ≤ n && n ≤ 0x2B81D) ||
  (0x2B820 ≤ n && n ≤ 0x2CEA1) ||
  (0x2CEB0 ≤ n && n ≤ 0x2EBE0) ||
  (0x2F800 ≤ n && n ≤ 0x2FA1D) ||
  (0x30000 ≤ n && n ≤ 0x3134A) ||
  (0x31350 ≤ n && n ≤ 0x323AF)

/-- The weight contributed by one rune: 2 for a Han (CJK) character, 1
otherwise. This is the `itemW` computation inside the truncation loops. -/
def charWeight (r : Char) : Nat := if isHan r then 2 else 1

/-- Embedding of `getWeight` (src/main.go lines 58-68): the loop
`for _, r := range s { if unicode.Is(unicode.Han, r) { w += 2 } else { w += 1 } }`
as a left fold over the rune sequence, starting from `w := 0`. -/
def getWeight (s : List Char) : Nat :=
  s.foldl (fun w r => if isHan r then w + 2 else w + 1) 0

/-- Embedding of the shared truncation loop of `truncateByWeight` and
`truncateByWeightWithEllipsis` (src/main.go lines 71-108): scan runes,
accumulate `currW`; before adding a rune of weight `itemW`, stop (Go `break`)
when `currW + itemW > maxW`; otherwise append the rune and continue. -/
def truncLoop (maxW : Nat) : List Char → Nat → List Char
  | [], _ => []
  | r :: rs, currW =>
    let itemW := if isHan r then 2 else 1
    if maxW < currW + itemW then []
    else r :: truncLoop maxW rs (currW + itemW)

/-- Embedding of `truncateByWeight` (src/main.go lines 93-108): the plain
truncation loop started with `currW := 0`, no ellipsis. -/
def truncateByWeight (s : List Char) (maxW : Nat) : List Char :=
  truncLoop maxW s 0

/-- Embedding of `truncateByWeightWithEllipsis` (src/main.go lines 71-90):
return `s` unchanged when `getWeight s <= maxW`; otherwise run the truncation
loop and append the single ellipsis rune. -/
def truncateByWeightWithEllipsis (s : List Char) (maxW : Nat) : List Char :=
  if getWeight s ≤ maxW then s
  else truncLoop maxW s 0 ++ ['…']

/-- Input budget constant `maxWeight` (src/main.go line 35). -/
def maxWeight : Nat := 40

/-- Tray display budget constant `maxShowWeight` (src/main.go line 36). -/
def maxShowWeight : Nat := 40

lemma getWeight_foldl (s : List Char) (a : Nat) :
    s.foldl (fun w r => if isHan r then w + 2 else w + 1) a = a + getWeight s := by
  induction s generalizing a with
  | nil => simp [getWeight]
  | cons r rs ih =>
    have hl : (r :: rs).foldl (fun w c => if isHan c then w + 2 else w + 1) a
        = rs.foldl (fun w c => if isHan c then w + 2 else w + 1)
            (if isHan r then a + 2 else a + 1) := rfl
    have hg : getWeight (r :: rs)
        = rs.foldl (fun w c => if isHan c then w + 2 else w + 1)
            (if isHan r then 0 + 2 else 0 + 1) := rfl
    rw [hl, hg, ih, ih]
    by_cases h : isHan r <;> simp [h] <;> omega

lemma getWeight_nil : getWeight [] = 0 := rfl

lemma getWeight_cons (r : Char) (s : List Char) :
    getWeight (r :: s) = charWeight r + getWeight s := by
  have h : getWeight (r :: s)
      = s.foldl (fun w c => if isHan c then w + 2 else w + 1)
          (if isHan r then 0 + 2 else 0 + 1) := rfl
  rw [h, getWeight_foldl]
  by_cases hr : isHan r <;> simp [charWeight, hr]

lemma getWeight_append (s t : List Char) :
    getWeight (s ++ t) = getWeight s + getWeight t := by
  induction s with
  | nil => simp [getWeight_nil]
  | cons r rs ih => simp [getWeight_cons, ih]; omega

lemma truncLoop_weight_le (maxW : Nat) (s : List Char) :
    ∀ currW, currW ≤ maxW → currW + getWeight (truncLoop maxW s currW) ≤ maxW := by
  induction s with
  | nil => intro currW h; simpa [truncLoop, getWeight_nil]
  | cons r rs ih =>
    intro currW h
    simp only [truncLoop]
    by_cases hb : maxW < currW + (if isHan r then 2 else 1)
    · simpa [hb, getWeight_nil]
    · simp only [hb, if_false, getWeight_cons]
      have h2 : currW + (if isHan r then 2 else 1) ≤ maxW := by omega
      have := ih (currW + (if isHan r then 2 else 1)) h2
      simp only [charWeight]
      omega

lemma truncLoop_initialSegment (maxW : Nat) (s : List Char) :
    ∀ currW, ∃ t, s = truncLoop maxW s currW ++ t := by
  induction s with
  | nil => intro currW; exact ⟨[], rfl⟩
  | cons r rs ih =>
    intro currW
    simp only [truncLoop]
    by_cases hb : maxW < currW + (if isHan r then 2 else 1)
    · exact ⟨r :: rs, by simp [hb]⟩
    · obtain ⟨t, ht⟩ := ih (currW + (if isHan r then 2 else 1))
      exact ⟨t, by simp [hb]; exact ht⟩

lemma truncLoop_of_fits (maxW : Nat) (s : List Char) :
    ∀ currW, currW + getWeight s ≤ maxW → truncLoop maxW s currW = s := by
  induction s with
  | nil => intro currW _; rfl
  | cons r rs ih =>
    intro currW h
    rw [getWeight_cons] at h
    have hcw : charWeight r = (if isHan r then 2 else 1) := rfl
    simp only [truncLoop]
    have hb : ¬ maxW < currW + (if isHan r then 2 else 1) := by
      rw [← hcw]; omega
    simp only [hb, if_false]
    rw [ih (currW + (if isHan r then 2 else 1))]
    rw [← hcw]; omega

/-- A to-do item (struct `Todo` in src/main.go): a single free-form text. -/
structure Todo where
  text : String
deriving DecidableEq, Repr

/-- Abstract syntax of JSON values, the image of the data file content under
`encoding/json` parsing. Object fields are kept in source order, since
`json.Unmarshal` processes them in order (a later duplicate key overwrites). -/
inductive Json where
  | null
  | bool (b : Bool)
  | num (n : Int)
  | str (s : String)
  | arr (elems : List Json)
  | obj (fields : List (String × Json))

/-- ASCII lower-casing of one character, modelling the case folding that
`json.Unmarshal` applies when matching JSON object keys to struct fields. -/
def foldLowerChar (c : Char) : Char :=
  if 65 ≤ c.toNat && c.toNat ≤ 90 then Char.ofNat (c.toNat + 32) else c

/-- Whether a JSON object key matches the `json:"text"` tag of `Todo.Text`:
`json.Unmarshal` matches the tag exactly, or case-insensitively as a
fallback. -/
def keyMatchesText (k : String) : Bool :=
  k.data.map foldLowerChar == ("text".data)

/-- Fold of `json.Unmarshal` over the fields of one JSON object when
decoding a `Todo`: a key matching the `text` tag sets the field from a JSON
string (`null` leaves it unchanged, any other value is a type error);
unknown keys are ignored; a later matching key overwrites an earlier one.
`none` models an unmarshalling error. -/
def decodeTodoFields : List (String × Json) → String → Option String
  | [], acc => some acc
  | (k, v) :: rest, acc =>
    if keyMatchesText k then
      match v with
      | Json.str s => decodeTodoFields rest s
      | Json.null => decodeTodoFields rest acc
      | _ => none
    else decodeTodoFields rest acc

/-- `json.Unmarshal` of one JSON value into a `Todo` (zero value with empty
text): `null` leaves the zero value, an object is decoded field by field,
and any other JSON value is a type error (`none`). -/
def decodeTodo : Json → Option Todo
  | Json.null => some ⟨""⟩
  | Json.obj fields => (decodeTodoFields fields "").map Todo.mk
  | _ => none

/-- Element-wise decoding of a JSON array into `[]Todo`; fails wholesale
when any element fails, as `loadTodos` discards the result on any error. -/
def decodeTodoList : List Json → Option (List Todo)
  | [] => some []
  | j :: rest =>
    match decodeTodo j with
    | none => none
    | some t =>
      match decodeTodoList rest with
      | none => none
      | some ts => some (t :: ts)

/-- `json.Unmarshal` of a JSON value into `[]Todo`: `null` leaves the nil
slice, an array decodes element-wise, anything else is a type error. -/
def decodeTodos : Json → Option (List Todo)
  | Json.null => some []
  | Json.arr elems => decodeTodoList elems
  | _ => none

/-- The observable state of the `todo.json` data file, as distinguished by
`loadTodos` (src/main.go lines 112-127): absent (`os.Stat` reports not
exist), unreadable (`os.ReadFile` fails), readable but not valid JSON
(`json.Unmarshal` fails on a syntax check before producing a value), or
readable with valid JSON content. -/
inductive FileState where
  | absent
  | unreadable
  | invalidJson
  | validJson (j : Json)

/-- Embedding of `loadTodos` (src/main.go lines 112-127): return the empty
list when the file is absent, unreadable or not valid JSON, and the decoded
list when the content unmarshals into `[]Todo`; no error is ever
propagated (the function is total). -/
def loadTodos : FileState → List Todo
  | FileState.absent => []
  | FileState.unreadable => []
  | FileState.invalidJson => []
  | FileState.validJson j =>
    match decodeTodos j with
    | none => []
    | some ts => ts

/-- The JSON value produced by `json.MarshalIndent(todos, "", "  ")` in
`saveTodos`: an array of one-field objects. Indentation is formatting only
and does not change the parsed value. -/
def marshalTodos (todos : List Todo) : Json :=
  Json.arr (todos.map fun t => Json.obj [("text", Json.str t.text)])

/-- Embedding of `saveTodos` (src/main.go lines 129-138) in the case where
the write succeeds: the data file afterwards holds the marshalled JSON. -/
def saveTodos (todos : List Todo) : FileState :=
  FileState.validJson (marshalTodos todos)

/-- Embedding of the delete closure built by `rebuildTray` (src/main.go
lines 375-386): scan `todos` from the front and remove the element at the
first index whose text equals `itemText` (Go
`todos = append(todos[:idx], todos[idx+1:]...)` followed by `break`);
without a match the list is unchanged. -/
def deleteFirstByText (todos : List Todo) (itemText : String) : List Todo :=
  match todos with
  | [] => []
  | t :: ts =>
    if t.text = itemText then ts else t :: deleteFirstByText ts itemText

/-- Embedding of `entry.OnSubmitted` (src/main.go lines 399-408) acting on
the to-do list: empty text is a no-op, any other text is appended as a new
`Todo` at the end (the input budget is enforced upstream by
`entry.OnChanged`, which clamps the entry text to `maxWeight`). -/
def entryOnSubmitted (todos : List Todo) (text : String) : List Todo :=
  if text = "" then todos else todos ++ [⟨text⟩]

/-- Outcome of `net.Dial` on the well-known socket path, together with the
outcome of the subsequent `conn.Write` when the dial succeeds. -/
inductive DialOutcome where
  | connected (writeSucceeds : Bool)
  | refused
deriving DecidableEq, Repr

/-- Result of `runSingleInstanceCheck` (src/main.go lines 182-221), as
observed by `main`: whether this process is the main instance, the lines it
wrote to the existing socket, and whether an error was returned. -/
structure SingleInstanceResult where
  isMainInstance : Bool
  sentToSocket : List String
  err : Bool
deriving DecidableEq, Repr

/-- Embedding of `runSingleInstanceCheck` (src/main.go lines 182-221): a
successful dial makes the process secondary: it writes the line `"show\n"`
and returns `(false, nil)`, or `(false, error)` when the write fails; a
failed dial makes the process the main instance (the listener goroutine is
spawned) and it returns `(true, nil)` without writing anything. -/
def runSingleInstanceCheck : DialOutcome → SingleInstanceResult
  | DialOutcome.connected writeSucceeds =>
    if writeSucceeds then ⟨false, ["show\n"], false⟩ else ⟨false, [], true⟩
  | DialOutcome.refused => ⟨true, [], false⟩

/-- Observable outcome of the startup sequence of `main`: whether the
process terminated during startup and with which exit code, what it wrote
to the socket, and the state of the data file when startup is over. -/
structure StartupOutcome where
  exited : Bool
  exitCode : Nat
  sentToSocket : List String
  dataFileAfter : FileState

/-- Embedding of the startup sequence of `main` (src/main.go lines
278-285): `log.Fatalf` (exit code 1) when `runSingleInstanceCheck` returns
an error, `os.Exit(0)` when the process is not the main instance, and
otherwise the process carries on to run the GUI (`exited = false`). No
branch of this sequence calls `saveTodos`, so the data file is unchanged in
every case: `saveTodos` is only reached from GUI callbacks of the main
instance, after startup. -/
def mainStartup (dial : DialOutcome) (dataFile : FileState) : StartupOutcome :=
  let r := runSingleInstanceCheck dial
  if r.err then ⟨true, 1, r.sentToSocket, dataFile⟩
  else if r.isMainInstance then ⟨false, 0, r.sentToSocket, dataFile⟩
  else ⟨true, 0, r.sentToSocket, dataFile⟩

/-- Go `unicode.IsSpace`, the rune predicate used by `strings.TrimSpace` in
`handleSocketConnection`: ASCII whitespace, NEL, NBSP and the Unicode space
separators. -/
def isGoSpace (c : Char) : Bool :=
  let n := c.toNat
  (9 ≤ n && n ≤ 13) || n == 32 || n == 0x85 || n == 0xA0 ||
  n == 0x1680 || (0x2000 ≤ n && n ≤ 0x200A) ||
  n == 0x2028 || n == 0x2029 || n == 0x202F || n == 0x205F || n == 0x3000

/-- `strings.TrimSpace`: drop leading and trailing whitespace runes. -/
def trimSpace (s : List Char) : List Char :=
  ((s.dropWhile isGoSpace).reverse.dropWhile isGoSpace).reverse

/-- Outcome of `reader.ReadString` with delimiter `\n` on an accepted
connection: either a read error (which includes a connection that closes
before any newline arrives), or the full line read, including its
terminating newline. -/
inductive SocketRead where
  | failed
  | line (raw : List Char)
deriving DecidableEq, Repr

/-- Embedding of `handleSocketConnection` (src/main.go lines 224-248):
reports whether an activate (show-window) action is enqueued via `fyne.Do`.
On a read error nothing happens; otherwise the line is trimmed with
`strings.TrimSpace` and compared against `"show"`; any other message is
only logged. -/
def handleSocketConnection : SocketRead → Bool
  | SocketRead.failed => false
  | SocketRead.line raw => trimSpace raw == ("show".data)

/-! Helper lemmas for the persistence round trip and the delete closure. -/

lemma decodeTodo_obj_text (s : String) :
    decodeTodo (Json.obj [("text", Json.str s)]) = some ⟨s⟩ := by
  have hk : keyMatchesText "text" = true := by decide
  simp [decodeTodo, decodeTodoFields, hk]

lemma decodeTodoList_marshal (texts : List String) :
    decodeTodoList (texts.map fun s => Json.obj [("text", Json.str s)])
      = some (texts.map Todo.mk) := by
  induction texts with
  | nil => rfl
  | cons t ts ih => simp [decodeTodoList, decodeTodo_obj_text, ih]

lemma decodeTodoList_marshalTodos (L : List Todo) :
    decodeTodoList (L.map fun t => Json.obj [("text", Json.str t.text)])
      = some L := by
  induction L with
  | nil => rfl
  | cons t ts ih => simp [decodeTodoList, decodeTodo_obj_text, ih]

lemma deleteFirstByText_append (pre post : List Todo) (t : Todo) (v : String) :
    (∀ x ∈ pre, x.text ≠ v) → t.text = v →
    deleteFirstByText (pre ++ t :: post) v = pre ++ post := by
  induction pre with
  | nil => intro _ ht; simp [deleteFirstByText, ht]
  | cons p ps ih =>
    intro hpre ht
    have hp : p.text ≠ v := hpre p (List.mem_cons_self p ps)
    have hps : ∀ x ∈ ps, x.text ≠ v := fun x hx => hpre x (List.mem_cons_of_mem p hx)
    simp [deleteFirstByText, hp, ih hps ht]

/-! The claims. -/

/-- Claim C1: when the startup dial to the well-known socket succeeds (a
primary instance is listening) and the write of the signal line goes
through, the process is SECONDARY (`isMainInstance = false`): it writes
exactly the single line `"show\n"`, terminates with exit code `0`, and the
persisted to-do file is left exactly as it was. -/
theorem mainStartup_secondary (f : FileState) :
    (runSingleInstanceCheck (DialOutcome.connected true)).isMainInstance = false ∧
    mainStartup (DialOutcome.connected true) f
      = ⟨true, 0, ["show\n"], f⟩ :=
  ⟨rfl, rfl⟩

/-- Claim C2 as stated is false on the code: `handleSocketConnection` trims
whitespace with `strings.TrimSpace` before comparing, so the line
`" show\n"` — whose message `" show"` does not equal `"show"` — still
triggers an activation. -/
theorem handleSocketConnection_trim_cex :
    handleSocketConnection (SocketRead.line (" show\n".data)) = true ∧
    (" show\n".data : List Char) ≠ ("show".data) ∧
    (" show".data : List Char) ≠ ("show".data) := by
  decide

/-- Claim C2 (amended): for every accepted connection, the handler enqueues
the activate (show-window) action exactly when the received line, after
stripping leading and trailing whitespace (including the terminating
newline), equals `"show"`; a read failure, like any message that does not
trim to `"show"`, causes no activation. -/
theorem handleSocketConnection_spec (raw : List Char) :
    (handleSocketConnection (SocketRead.line raw) = true
      ↔ trimSpace raw = ("show".data)) ∧
    handleSocketConnection SocketRead.failed = false := by
  constructor
  · simp [handleSocketConnection]
  · rfl

/-- Claim C3: `loadTodos` returns the empty list when the data file is
absent, unreadable, or not valid JSON — propagating no error in any case
(it is a total function) — and returns exactly the persisted sequence when
the file holds a valid JSON array of objects with a `"text"` string
field. -/
theorem loadTodos_spec (texts : List String) :
    loadTodos FileState.absent = [] ∧
    loadTodos FileState.unreadable = [] ∧
    loadTodos FileState.invalidJson = [] ∧
    loadTodos (FileState.validJson
        (Json.arr (texts.map fun s => Json.obj [("text", Json.str s)])))
      = texts.map Todo.mk := by
  refine ⟨rfl, rfl, rfl, ?_⟩
  simp [loadTodos, decodeTodos, decodeTodoList_marshal]

/-- Claim C4: round trip — saving any ordered list of to-dos and then
loading returns exactly the same list, same texts in the same order,
provided nothing interferes between the save and the load. -/
theorem loadTodos_saveTodos (L : List Todo) :
    loadTodos (saveTodos L) = L := by
  simp [loadTodos, saveTodos, marshalTodos, decodeTodos, decodeTodoList_marshalTodos]

/-- Claim C5: the delete closure of the tray menu removes exactly the first
entry whose text equals the given value and preserves the relative order of
all remaining entries; in particular deleting `"a"` from `["a","b","a"]`
yields `["b","a"]`. -/
theorem deleteFirstByText_spec (pre post : List Todo) (t : Todo) (v : String)
    (hpre : ∀ x ∈ pre, x.text ≠ v) (ht : t.text = v) :
    deleteFirstByText (pre ++ t :: post) v = pre ++ post ∧
    deleteFirstByText [⟨"a"⟩, ⟨"b"⟩, ⟨"a"⟩] "a" = [⟨"b"⟩, ⟨"a"⟩] :=
  ⟨deleteFirstByText_append pre post t v hpre ht, by decide⟩

/-- Witness for claim C5 at a concrete input: deleting `"a"` from
`["b","a","c"]` removes the (first) matching entry and keeps `["b","c"]`. -/
theorem deleteFirstByText_spec_witness :
    deleteFirstByText ([⟨"b"⟩] ++ (⟨"a"⟩ : Todo) :: [⟨"c"⟩]) "a"
        = [⟨"b"⟩] ++ [⟨"c"⟩] ∧
    deleteFirstByText [⟨"a"⟩, ⟨"b"⟩, ⟨"a"⟩] "a" = [⟨"b"⟩, ⟨"a"⟩] :=
  deleteFirstByText_spec [⟨"b"⟩] [⟨"c"⟩] ⟨"a"⟩ "a" (by decide) rfl

/-- Claim C6: for every string, `getWeight` equals 2 times the number of
CJK (Han) characters plus 1 times the number of all other characters. -/
theorem getWeight_eq_two_mul_cjk_add_other (s : List Char) :
    getWeight s
      = 2 * (s.filter isHan).length + (s.filter (fun c => ! isHan c)).length := by
  induction s with
  | nil => simp [getWeight_nil]
  | cons r rs ih =>
    rw [getWeight_cons, ih]
    by_cases h : isHan r <;> simp [List.filter, charWeight, h] <;> omega

/-- Claim C7: for every string `s` and budget `m`, either `s` already fits
(weight at most `m`) and truncation with ellipsis returns it unchanged with
no ellipsis appended, or the weight of `s` exceeds `m` and the result ends
with the ellipsis marker while its weight excluding that marker is at most
`m`. -/
theorem truncateByWeightWithEllipsis_spec (s : List Char) (m : Nat) :
    (getWeight s ≤ m ∧ truncateByWeightWithEllipsis s m = s) ∨
    (m < getWeight s ∧ ∃ t, truncateByWeightWithEllipsis s m = t ++ ['…']
      ∧ getWeight t ≤ m) := by
  by_cases h : getWeight s ≤ m
  · exact Or.inl ⟨h, by simp [truncateByWeightWithEllipsis, h]⟩
  · refine Or.inr ⟨by omega, truncLoop m s 0,
      by simp [truncateByWeightWithEllipsis, h], ?_⟩
    have := truncLoop_weight_le m s 0 (Nat.zero_le m)
    omega

/-- Claim C8: for every string `s` and budget `m`, the weight of the plain
truncation is at most `m`, and the result is an initial segment of `s` made
of whole characters only: a character that does not fit in the remaining
budget is dropped entirely, never split. -/
theorem truncateByWeight_weight_le (s : List Char) (m : Nat) :
    getWeight (truncateByWeight s m) ≤ m
      ∧ ∃ t, s = truncateByWeight s m ++ t := by
  constructor
  · have := truncLoop_weight_le m s 0 (Nat.zero_le m)
    simpa [truncateByWeight] using this
  · exact truncLoop_initialSegment m s 0

/-- Claim C9: truncation without ellipsis is idempotent: truncating an
already-truncated string with the same budget returns it unchanged. -/
theorem truncateByWeight_idempotent (s : List Char) (m : Nat) :
    truncateByWeight (truncateByWeight s m) m = truncateByWeight s m := by
  have hb := truncLoop_weight_le m s 0 (Nat.zero_le m)
  exact truncLoop_of_fits m (truncLoop m s 0) 0 (by omega)

/-- Claim C10: submitting a non-empty text within the input budget appends
exactly one `Todo` carrying that text at the end of the current list; every
previously present item keeps its text and relative position, and duplicate
texts are permitted (no deduplication on add). -/
theorem entryOnSubmitted_appends (todos : List Todo) (text : String)
    (hne : text ≠ "") (hbudget : getWeight (text.data) ≤ maxWeight) :
    entryOnSubmitted todos text = todos ++ [⟨text⟩] := by
  simp [entryOnSubmitted, hne]

/-- Witness for claim C10 at a concrete input: adding `"a"` to a list that
already contains `"a"` appends a duplicate at the end. -/
theorem entryOnSubmitted_appends_witness :
    entryOnSubmitted [⟨"a"⟩] "a" = [⟨"a"⟩] ++ [⟨"a"⟩] :=
  entryOnSubmitted_appends [⟨"a"⟩] "a" (by decide) (by decide)

end MyTodo
